import Mathlib

/-!
Shallow embedding of `asset_web_service.py` (asset-web-service repository).

Conventions of the embedding:
* Python `float` values are modelled as rationals (`ℚ`); the claims under
  study are about the arithmetic structure of the computations, and every
  concrete number appearing in them is exactly representable.
* A Python `dict` is modelled as an insertion-ordered association list with
  unique keys (`dictSet` overwrites in place, `dictGetD` is `dict.get`).
* The module-level mutable list `all_assets` is modelled by explicit state
  passing: each handler takes the current store and returns its result
  together with the store it leaves behind (handlers that call
  `all_assets.sort(...)` mutate the store in place).
* `lxml` + XPath extraction is modelled structurally: a document is the list
  of its `<table>`/`<div>` elements, each carrying its `class` attribute and
  the `text_content()` of its rows; the XPath
  `//table[@class="data"]/tbody/tr` becomes filtering on the class attribute
  and concatenating the rows of all matching tables, in document order.
* A Python exception escaping a parse function (IndexError from a short
  `split`, ValueError from `int`/`float`, ZeroDivisionError) is modelled by
  `Except ParseErr`; `round(x, 8)` is modelled by round-half-to-even on ℚ,
  Python's documented rounding policy.
-/

/- Batteries marks the `Rat` field operations `@[irreducible]`; restore
definitional transparency so that concrete rational computations can be
settled by `decide`. -/
set_option allowUnsafeReducibility true

attribute [semireducible] Rat.mul Rat.add Rat.sub Rat.div Rat.inv Rat.neg

deriving instance DecidableEq for Except

namespace AssetWS

/-! ### Python dictionaries as insertion-ordered association lists -/

/-- `d[k] = v` on a Python dict: overwrite in place if the key is present,
append otherwise. -/
def dictSet {κ ν : Type} [BEq κ] (d : List (κ × ν)) (k : κ) (v : ν) :
    List (κ × ν) :=
  if d.any (fun p => p.1 == k) then
    d.map (fun p => if p.1 == k then (k, v) else p)
  else d ++ [(k, v)]

/-- Lookup in a Python dict. -/
def dictFind? {κ ν : Type} [BEq κ] (d : List (κ × ν)) (k : κ) : Option ν :=
  (d.find? (fun p => p.1 == k)).map (fun p => p.2)

/-- `k in d` on a Python dict. -/
def dictMem {κ ν : Type} [BEq κ] (d : List (κ × ν)) (k : κ) : Bool :=
  d.any (fun p => p.1 == k)

/-- `d.get(k, v₀)` on a Python dict. -/
def dictGetD {κ ν : Type} [BEq κ] (d : List (κ × ν)) (k : κ) (v₀ : ν) : ν :=
  (dictFind? d k).getD v₀

/-- A RateTable: currency code → numeric rate, as produced by the parsers. -/
abbrev RateTable : Type := List (String × ℚ)

/-! ### Rounding: Python's `round(x, 8)` (round-half-to-even) over ℚ -/

/-- Floor of a rational, computed by floor division of numerator by
denominator so that it evaluates by kernel reduction. -/
def ratFloor (x : ℚ) : ℤ :=
  Int.fdiv x.num (x.den : ℤ)

/-- Round a rational to the nearest integer, ties to the even neighbour
(Python's `round` policy). -/
def roundHalfEven (x : ℚ) : ℤ :=
  let f : ℤ := ratFloor x
  if x - f < 1/2 then f
  else if (1:ℚ)/2 < x - f then f + 1
  else if f % 2 = 0 then f else f + 1

/-- `round(x, 8)`. -/
def round8 (x : ℚ) : ℚ :=
  (roundHalfEven (x * 100000000) : ℚ) / 100000000

/-! ### Python string primitives, modelled structurally over `List Char`
(the library's position-based string functions do not evaluate by kernel
reduction, so the handful the parsers need is redefined here). -/

/-- `s.split(sep)` for a one-character separator: splits at every
occurrence, keeping empty pieces. -/
def splitCharsOn (sep : Char) : List Char → List (List Char)
  | [] => [[]]
  | c :: rest =>
    match splitCharsOn sep rest with
    | [] => [[]]
    | g :: gs => if c == sep then [] :: g :: gs else (c :: g) :: gs

/-- The characters Python's `str.strip()` and `int`/`float` conversion strip. -/
def pyWhitespace (c : Char) : Bool :=
  c == ' ' || c == '\t' || c == '\n' || c == '\r' || c == '\x0b' || c == '\x0c'

/-- `s.strip()` on a character list. -/
def trimChars (cs : List Char) : List Char :=
  ((cs.dropWhile pyWhitespace).reverse.dropWhile pyWhitespace).reverse

/-- `s.strip()`. -/
def pyStrip (s : String) : String :=
  String.mk (trimChars s.data)

/-- Value of a string of decimal digits. -/
def digitsToNat (cs : List Char) : ℕ :=
  cs.foldl (fun n c => 10 * n + (c.toNat - 48)) 0

/-- A nonempty all-digit character list, or `none`. -/
def digits? (cs : List Char) : Option ℕ :=
  if !cs.isEmpty && cs.all Char.isDigit then some (digitsToNat cs) else none

/-- Python `int(s)` on the decimal forms it accepts (surrounding whitespace,
optional sign, digits); `none` models the ValueError raised otherwise. -/
def pyInt (s : String) : Option ℤ :=
  match trimChars s.data with
  | '-' :: rest => (digits? rest).map (fun n => -(n : ℤ))
  | '+' :: rest => (digits? rest).map (fun n => (n : ℤ))
  | t => (digits? t).map (fun n => (n : ℤ))

/-- Python `float(s)` on plain decimal forms (surrounding whitespace,
optional sign, digits with an optional fractional part); `none` models the
ValueError raised otherwise. -/
def pyFloat (s : String) : Option ℚ :=
  let t := trimChars s.data
  let su : ℚ × List Char :=
    match t with
    | '-' :: rest => (-1, rest)
    | '+' :: rest => (1, rest)
    | _ => (1, t)
  match splitCharsOn '.' su.2 with
  | [a] => (digits? a).map (fun n => su.1 * (n : ℚ))
  | [a, b] =>
      if (!a.isEmpty || !b.isEmpty) && a.all Char.isDigit && b.all Char.isDigit then
        some (su.1 * ((digitsToNat a : ℚ) + (digitsToNat b : ℚ) / (10 : ℚ) ^ b.length))
      else none
  | _ => none

/-! ### The Asset class -/

/-- `class Asset`: one declared holding. -/
structure Asset where
  name : String
  char_code : String
  capital : ℚ
  interest : ℚ
  deriving DecidableEq

/-- `Asset.calculate_revenue`: `rate * capital * ((1.0 + interest) ** years - 1.0)`. -/
def Asset.calculate_revenue (a : Asset) (years : ℕ) (rate : ℚ) : ℚ :=
  rate * a.capital * ((1 + a.interest) ^ years - 1)

/-- `Asset.get_asset`: `[char_code, name, capital, interest]`. -/
def Asset.get_asset (a : Asset) : String × String × ℚ × ℚ :=
  (a.char_code, a.name, a.capital, a.interest)

/-! ### The daily-rates parser -/

/-- One element of the HTML structure the XPath queries see: its `class`
attribute and the `text_content()` of each of its `<tbody>` rows. -/
structure TableElem where
  cls : String
  rowTexts : List String
  deriving DecidableEq

/-- `lxml.html.fromstring(s).xpath('//table[@class="data"]/tbody/tr')`:
the rows of every table whose class attribute is exactly `"data"`, in
document order. -/
def xpathDailyRows (doc : List TableElem) : List String :=
  (doc.filter (fun t => t.cls == "data")).flatMap (fun t => t.rowTexts)

/-- The Python exceptions a parse function can raise. -/
inductive ParseErr where
  | indexErr
  | valueErr
  | zeroDivErr
  deriving DecidableEq

/-- One iteration of the loop body of `parse_cbr_currency_base_daily` on row
text `el.text_content()`: `split('\n')[2].strip()` is the code,
`int(split('\n')[3])` the unit, `float(split('\n')[5])` the rate. -/
def parseDailyRow (text : String) : Except ParseErr (String × ℤ × ℚ) := do
  let segs := (splitCharsOn '\n' text.data).map String.mk
  let c2 ← match segs[2]? with | some s => Except.ok s | none => Except.error ParseErr.indexErr
  let c3 ← match segs[3]? with | some s => Except.ok s | none => Except.error ParseErr.indexErr
  let c5 ← match segs[5]? with | some s => Except.ok s | none => Except.error ParseErr.indexErr
  let unit ← match pyInt c3 with | some n => Except.ok n | none => Except.error ParseErr.valueErr
  let rate ← match pyFloat c5 with | some q => Except.ok q | none => Except.error ParseErr.valueErr
  Except.ok (pyStrip c2, unit, rate)

/-- `parse_cbr_currency_base_daily`: skip the first (header) row, and for
each remaining row store `round(rate / unit, 8)` under the stripped currency
code. An escaping exception is an `Except.error`. -/
def parse_cbr_currency_base_daily (doc : List TableElem) :
    Except ParseErr RateTable :=
  ((xpathDailyRows doc).drop 1).foldlM
    (fun (currencies : RateTable) text => do
      let (code, unit, rate) ← parseDailyRow text
      if unit = 0 then Except.error ParseErr.zeroDivErr
      else Except.ok (dictSet currencies code (round8 (rate / (unit : ℚ)))))
    ([] : RateTable)

/-! ### The asset store handlers

The module-level list `all_assets` is the state threaded through each
handler. -/

/-- `asset_has_duplicate_name`: some stored asset has the same `name`. -/
def asset_has_duplicate_name (all_assets : List Asset) (new_asset : Asset) : Bool :=
  all_assets.any (fun a => a.name == new_asset.name)

/-- Outcome of the `add_asset` handler. -/
inductive AddResult where
  | duplicate
  | added
  deriving DecidableEq

/-- `add_asset`: 403 "Duplicate asset name" if the name is taken, else
append. Returns the response together with the store left behind. -/
def add_asset (all_assets : List Asset) (new_asset : Asset) :
    AddResult × List Asset :=
  if asset_has_duplicate_name all_assets new_asset then
    (AddResult.duplicate, all_assets)
  else
    (AddResult.added, all_assets ++ [new_asset])

/-- Lexicographic code-point comparison of character lists: how CPython
compares two `str` keys. -/
def charListLe : List Char → List Char → Bool
  | [], _ => true
  | _ :: _, [] => false
  | c :: cs, d :: ds => if c = d then charListLe cs ds else decide (c < d)

/-- `s <= t` on Python strings. -/
def strLe (s t : String) : Bool :=
  charListLe s.data t.data

/-- `all_assets.sort(key=lambda x: x.char_code)`: Python's stable in-place
sort keyed by `char_code`. -/
def sortByCharCode (all_assets : List Asset) : List Asset :=
  all_assets.mergeSort (fun a b => strLe a.char_code b.char_code)

/-- `print_assets` (route `/api/asset/list`): sort the store in place, then
serialize every asset. Returns the JSON payload and the store left behind. -/
def print_assets (all_assets : List Asset) :
    List (String × String × ℚ × ℚ) × List Asset :=
  let sorted := sortByCharCode all_assets
  (sorted.map Asset.get_asset, sorted)

/-- `clean_assets` (route `/api/asset/cleanup`): `all_assets = []`. -/
def clean_assets (_all_assets : List Asset) : List Asset :=
  []

/-- `get_assets_by_name` (route `/api/asset/get`): sort the store in place,
then keep the assets whose `name` is among the query's `name` parameters.
Returns the JSON payload and the store left behind. -/
def get_assets_by_name (all_assets : List Asset) (input_names : List String) :
    List (String × String × ℚ × ℚ) × List Asset :=
  let sorted := sortByCharCode all_assets
  ((sorted.filter (fun a => input_names.contains a.name)).map Asset.get_asset,
   sorted)

/-! ### Revenue calculation -/

/-- The body of the inner `for asset in all_assets` loop of
`calc_all_revenue`: possibly set `currencies['RUB'] = 1`, pick the rate
(key indicators first, else daily rates with default `0`), and accumulate
this asset's revenue. The state is (currencies, running total). -/
def revenueStep (indicators : RateTable) (period : ℕ)
    (st : RateTable × ℚ) (asset : Asset) : RateTable × ℚ :=
  let currencies := if asset.char_code == "RUB" then dictSet st.1 "RUB" 1 else st.1
  let rate :=
    if dictMem indicators asset.char_code then
      dictGetD indicators asset.char_code 0
    else
      dictGetD currencies asset.char_code 0
  (currencies, st.2 + asset.calculate_revenue period rate)

/-- `calc_all_revenue` (route `/api/asset/calculate_revenue`): for each
requested period accumulate every asset's revenue with the rate precedence
above, round the per-period total to 8 decimals, and record it in the result
dict. The `currencies` dict mutated by the RUB case is shared across the
whole request. -/
def calc_all_revenue (input_periods : List ℕ) (all_assets : List Asset)
    (indicators currencies : RateTable) : List (ℕ × ℚ) :=
  (input_periods.foldl
    (fun (st : List (ℕ × ℚ) × RateTable) period =>
      let inner := all_assets.foldl (revenueStep indicators period) (st.2, 0)
      (dictSet st.1 period (round8 inner.2), inner.1))
    (([] : List (ℕ × ℚ)), currencies)).1

/-- The rate `calc_all_revenue` effectively applies to a currency code:
a key-indicators entry always wins; otherwise "RUB" is forced to `1`;
otherwise the daily-rates entry with default `0`. -/
def applicableRate (indicators currencies : RateTable) (code : String) : ℚ :=
  if dictMem indicators code then dictGetD indicators code 0
  else if code = "RUB" then 1
  else dictGetD currencies code 0

/-- Store states reachable through the service's handlers, starting from the
initial empty `all_assets`. -/
inductive Reachable : List Asset → Prop where
  | empty : Reachable []
  | add (s : List Asset) (a : Asset) : Reachable s → Reachable (add_asset s a).2
  | cleanup (s : List Asset) : Reachable s → Reachable (clean_assets s)
  | list (s : List Asset) : Reachable s → Reachable (print_assets s).2
  | byName (s : List Asset) (ns : List String) :
      Reachable s → Reachable (get_assets_by_name s ns).2

/-- A read-only request: `/api/asset/list` or `/api/asset/get`. -/
inductive ReadCall where
  | list
  | byName (ns : List String)

/-- The store left behind by a read-only request (both sort in place). -/
def applyReadCall (s : List Asset) : ReadCall → List Asset
  | ReadCall.list => (print_assets s).2
  | ReadCall.byName ns => (get_assets_by_name s ns).2

/-! ## Order bridge: `strLe` is the string order ≤ -/

theorem charListLe_iff_not_lt (cs ds : List Char) :
    charListLe cs ds = true ↔ ¬ List.lt ds cs := by
  induction cs generalizing ds with
  | nil =>
    cases ds with
    | nil => simp only [charListLe, true_iff]; exact nofun
    | cons d ds => simp only [charListLe, true_iff]; exact nofun
  | cons c cs ih =>
    cases ds with
    | nil =>
      simp only [charListLe]
      exact iff_of_false (by simp) (fun h => h (List.lt.nil c cs))
    | cons d ds =>
      by_cases hcd : c = d
      · subst hcd
        rw [charListLe, if_pos rfl, ih]
        apply not_congr
        constructor
        · exact fun h => List.lt.tail (lt_irrefl c) (lt_irrefl c) h
        · intro h
          cases h with
          | head _ _ h1 => exact absurd h1 (lt_irrefl c)
          | tail _ _ h3 => exact h3
      · rw [charListLe, if_neg hcd, decide_eq_true_eq]
        constructor
        · intro h hlt
          cases hlt with
          | head _ _ h1 => exact absurd h1 (lt_asymm h)
          | tail h1 h2 h3 => exact h2 h
        · intro h
          rcases lt_trichotomy c d with h1 | h1 | h1
          · exact h1
          · exact absurd h1 hcd
          · exact absurd (List.lt.head _ _ h1) h

theorem strLe_iff_le (s t : String) : strLe s t = true ↔ s ≤ t := by
  rw [strLe, charListLe_iff_not_lt]
  exact not_congr ((List.lt_iff_lex_lt t.data s.data).trans
    String.lt_iff_toList_lt.symm)

/-! ## Sorting lemmas -/

theorem strLe_trans (a b c : Asset) :
    strLe a.char_code b.char_code → strLe b.char_code c.char_code →
    strLe a.char_code c.char_code := fun hab hbc =>
  (strLe_iff_le _ _).mpr
    (le_trans ((strLe_iff_le _ _).mp hab) ((strLe_iff_le _ _).mp hbc))

theorem strLe_total (a b : Asset) :
    strLe a.char_code b.char_code || strLe b.char_code a.char_code := by
  rcases le_total a.char_code b.char_code with h | h
  · exact Bool.or_eq_true_iff.mpr (Or.inl ((strLe_iff_le _ _).mpr h))
  · exact Bool.or_eq_true_iff.mpr (Or.inr ((strLe_iff_le _ _).mpr h))

theorem sortByCharCode_perm (s : List Asset) : (sortByCharCode s).Perm s :=
  List.mergeSort_perm s _

theorem sortByCharCode_sorted (s : List Asset) :
    List.Sorted (fun a b : Asset => a.char_code ≤ b.char_code)
      (sortByCharCode s) := by
  have h := List.sorted_mergeSort strLe_trans strLe_total s
  exact h.imp (fun hab => (strLe_iff_le _ _).mp hab)

/-! ## The asset-store claims -/

/-- C6: for every store state, `/api/asset/list` returns all stored assets
(the payload is a permutation of the stored assets' serializations) sorted
ascending by `charCode`. -/
theorem print_assets_sorted_by_charCode (s : List Asset) :
    ((print_assets s).1).Perm (s.map Asset.get_asset)
    ∧ List.Sorted (fun t u : String × String × ℚ × ℚ => t.1 ≤ u.1)
        (print_assets s).1 := by
  constructor
  · exact (sortByCharCode_perm s).map Asset.get_asset
  · exact List.pairwise_map.mpr (sortByCharCode_sorted s)

theorem applyReadCall_perm (s : List Asset) (c : ReadCall) :
    (applyReadCall s c).Perm s := by
  cases c
  · exact sortByCharCode_perm s
  · exact sortByCharCode_perm s

/-- C10: `/api/asset/list` and `/api/asset/get` only re-sort the store in
place: after any sequence of such calls the stored assets (all four fields)
are a permutation of the original store, so nothing is added, removed or
modified. -/
theorem read_calls_leave_store_unchanged (s : List Asset)
    (calls : List ReadCall) :
    (calls.foldl applyReadCall s).Perm s := by
  induction calls generalizing s with
  | nil => exact List.Perm.refl s
  | cons c cs ih => exact (ih (applyReadCall s c)).trans (applyReadCall_perm s c)

theorem applyReadCall_nil (c : ReadCall) : applyReadCall [] c = [] := by
  cases c
  · simp [applyReadCall, print_assets, sortByCharCode]
  · simp [applyReadCall, get_assets_by_name, sortByCharCode]

/-- C9: `/api/asset/cleanup` discards all assets, and every subsequent
read-only call still finds the store empty and `/api/asset/list` returns
the empty sequence, for any prior store contents. -/
theorem clean_assets_then_list_empty (s : List Asset) (calls : List ReadCall) :
    clean_assets s = []
    ∧ calls.foldl applyReadCall (clean_assets s) = []
    ∧ (print_assets (calls.foldl applyReadCall (clean_assets s))).1 = [] := by
  have hfold : ∀ cs : List ReadCall, cs.foldl applyReadCall ([] : List Asset) = [] := by
    intro cs
    induction cs with
    | nil => rfl
    | cons c cs ih => rw [List.foldl_cons, applyReadCall_nil]; exact ih
  refine ⟨rfl, hfold calls, ?_⟩
  show (print_assets (calls.foldl applyReadCall [])).1 = []
  rw [hfold calls]
  simp [print_assets, sortByCharCode]

theorem asset_has_duplicate_name_iff (s : List Asset) (a : Asset) :
    asset_has_duplicate_name s a = true ↔ ∃ b ∈ s, b.name = a.name := by
  simp [asset_has_duplicate_name]

theorem reachable_names_nodup (s : List Asset) (h : Reachable s) :
    (s.map Asset.name).Nodup := by
  induction h with
  | empty => simp
  | add s a _ ih =>
    by_cases hd : asset_has_duplicate_name s a = true
    · simpa [add_asset, hd] using ih
    · rw [add_asset, if_neg (by simp [hd])]
      simp only [List.map_append, List.map_cons, List.map_nil]
      rw [List.nodup_append]
      refine ⟨ih, List.nodup_singleton _, ?_⟩
      intro x hx
      simp only [List.mem_singleton]
      intro hxa
      rcases List.mem_map.mp hx with ⟨b, hb, hbx⟩
      exact hd ((asset_has_duplicate_name_iff s a).mpr ⟨b, hb, by rw [hbx, hxa]⟩)
  | cleanup s _ _ => simp [clean_assets]
  | list s _ ih => exact (((sortByCharCode_perm s).map Asset.name).nodup_iff).mpr ih
  | byName s ns _ ih => exact (((sortByCharCode_perm s).map Asset.name).nodup_iff).mpr ih

/-- C5: adding an asset whose `name` coincides (string-exactly) with a
stored asset's name yields the duplicate error and leaves the store
unchanged; otherwise the asset is appended; and every reachable store has
pairwise distinct names. -/
theorem add_asset_spec (s : List Asset) (a : Asset) :
    ((∃ b ∈ s, b.name = a.name) → add_asset s a = (AddResult.duplicate, s))
    ∧ ((¬ ∃ b ∈ s, b.name = a.name) →
        add_asset s a = (AddResult.added, s ++ [a]))
    ∧ (Reachable s → (s.map Asset.name).Nodup) := by
  refine ⟨?_, ?_, reachable_names_nodup s⟩
  · intro h
    rw [add_asset, if_pos ((asset_has_duplicate_name_iff s a).mpr h)]
  · intro h
    rw [add_asset,
      if_neg (fun hb => h ((asset_has_duplicate_name_iff s a).mp hb))]

/-- Witness for C5 at a concrete store. -/
theorem add_asset_spec_witness :
    add_asset [⟨"alpha", "USD", 1, 0⟩] ⟨"alpha", "EUR", 2, 0⟩
      = (AddResult.duplicate, [⟨"alpha", "USD", 1, 0⟩])
    ∧ add_asset [⟨"alpha", "USD", 1, 0⟩] ⟨"beta", "EUR", 2, 0⟩
      = (AddResult.added, [⟨"alpha", "USD", 1, 0⟩, ⟨"beta", "EUR", 2, 0⟩])
    ∧ (([⟨"alpha", "USD", 1, 0⟩] : List Asset).map Asset.name).Nodup := by
  refine ⟨(add_asset_spec _ _).1 ⟨⟨"alpha", "USD", 1, 0⟩, by simp, rfl⟩,
          (add_asset_spec _ _).2.1 (by decide),
          (add_asset_spec [⟨"alpha", "USD", 1, 0⟩] ⟨"x", "EUR", 2, 0⟩).2.2
            (Reachable.add [] ⟨"alpha", "USD", 1, 0⟩ Reachable.empty)⟩

/-- C7: `/api/asset/get` returns exactly the stored assets whose `name` is
among the query's names, in the same ascending-`charCode` order as
`/api/asset/list`; over a store with assets named A, B, C, asking for
{A, C} returns exactly A and C sorted by charCode. -/
theorem get_assets_by_name_spec (s : List Asset) (names : List String) :
    ((get_assets_by_name s names).1).Perm
      ((s.filter (fun a => names.contains a.name)).map Asset.get_asset)
    ∧ List.Sorted (fun t u : String × String × ℚ × ℚ => t.1 ≤ u.1)
        ((get_assets_by_name s names).1)
    ∧ (get_assets_by_name
        [⟨"A", "USD", 1, 0⟩, ⟨"B", "EUR", 2, 0⟩, ⟨"C", "AUD", 3, 0⟩]
        ["A", "C"]).1
      = [("AUD", "C", 3, 0), ("USD", "A", 1, 0)] := by
  refine ⟨?_, ?_, ?_⟩
  · exact (((sortByCharCode_perm s).filter _).map Asset.get_asset)
  · exact List.pairwise_map.mpr ((sortByCharCode_sorted s).filter _)
  · simp [get_assets_by_name, sortByCharCode, List.mergeSort, List.merge,
      strLe, charListLe, List.filter, Asset.get_asset]

/-! ## Dictionary lemmas -/

theorem dictFind?_eq_none (d : List (String × ℚ)) (k : String)
    (h : dictMem d k = false) : dictFind? d k = none := by
  have hn : d.find? (fun p => p.1 == k) = none := by
    rw [List.find?_eq_none]
    intro p hp hpk
    rw [dictMem] at h
    exact (List.any_eq_false.mp h p hp) hpk
  rw [dictFind?, hn]
  rfl

theorem find?_overwrite_self (d : List (String × ℚ)) (k : String) (v : ℚ) :
    (d.map (fun q => if q.1 == k then (k, v) else q)).find? (fun q => q.1 == k)
      = if d.any (fun q => q.1 == k) then some (k, v) else none := by
  induction d with
  | nil => rfl
  | cons p rest ih =>
    cases hp : (p.1 == k) with
    | true =>
      simp only [List.map_cons, hp, if_true, List.find?_cons, List.any_cons]
      simp [ih]
    | false =>
      simp only [List.map_cons, hp, Bool.false_eq_true, if_false, List.find?_cons,
        List.any_cons, Bool.false_or]
      exact ih

theorem find?_overwrite_ne (d : List (String × ℚ)) (k k' : String) (v : ℚ)
    (h : k' ≠ k) :
    (d.map (fun q => if q.1 == k then (k, v) else q)).find? (fun q => q.1 == k')
      = d.find? (fun q => q.1 == k') := by
  have hkk' : (k == k') = false := by
    simp only [beq_eq_false_iff_ne, ne_eq]
    exact fun e => h e.symm
  induction d with
  | nil => rfl
  | cons p rest ih =>
    cases hp : (p.1 == k) with
    | true =>
      have hp1 : p.1 = k := by simpa using hp
      have hp' : (p.1 == k') = false := by rw [hp1]; exact hkk'
      simp only [List.map_cons, hp, if_true, List.find?_cons, hkk', hp']
      exact ih
    | false =>
      cases hp' : (p.1 == k') with
      | true =>
        simp only [List.map_cons, hp, Bool.false_eq_true, if_false,
          List.find?_cons, hp']
      | false =>
        simp only [List.map_cons, hp, Bool.false_eq_true, if_false,
          List.find?_cons, hp']
        exact ih

theorem dictFind?_dictSet_self (d : List (String × ℚ)) (k : String) (v : ℚ) :
    dictFind? (dictSet d k v) k = some v := by
  rw [dictSet]
  by_cases h : d.any (fun p => p.1 == k)
  · rw [if_pos h, dictFind?, find?_overwrite_self, if_pos h]
    rfl
  · rw [if_neg h, dictFind?, List.find?_append]
    have hn : d.find? (fun p => p.1 == k) = none := by
      rw [List.find?_eq_none]
      intro p hp hpk
      exact absurd (List.any_eq_true.mpr ⟨p, hp, hpk⟩) h
    simp [hn]

theorem dictFind?_dictSet_ne (d : List (String × ℚ)) (k k' : String) (v : ℚ)
    (h : k' ≠ k) : dictFind? (dictSet d k v) k' = dictFind? d k' := by
  rw [dictSet]
  by_cases hm : d.any (fun p => p.1 == k)
  · rw [if_pos hm, dictFind?, dictFind?, find?_overwrite_ne d k k' v h]
  · rw [if_neg hm, dictFind?, dictFind?, List.find?_append]
    have h1 : ((k, v).1 == k') = false := by
      simp only [beq_eq_false_iff_ne, ne_eq]
      exact fun hkk => h hkk.symm
    cases hf : d.find? (fun p => p.1 == k') <;> simp [hf, h1]

/-! ## Revenue-calculation lemmas

The inner loop threads the mutable `currencies` dict, which the RUB case
updates in place; the invariant is that the threaded dict agrees with the
original daily-rates table on every key other than `"RUB"`. -/

theorem revenueStep_snd (ind : RateTable) (p : ℕ) (cur : RateTable)
    (st : RateTable × ℚ) (a : Asset)
    (h : ∀ k : String, k ≠ "RUB" → dictFind? st.1 k = dictFind? cur k) :
    (revenueStep ind p st a).2
      = st.2 + a.calculate_revenue p (applicableRate ind cur a.char_code) := by
  simp only [revenueStep, applicableRate]
  cases hind : dictMem ind a.char_code with
  | true => simp [hind]
  | false =>
    cases hrub : (a.char_code == "RUB") with
    | true =>
      have hcode : a.char_code = "RUB" := by simpa using hrub
      simp [hind, hrub, hcode, dictGetD, dictFind?_dictSet_self]
    | false =>
      have hcode : a.char_code ≠ "RUB" := by simpa using hrub
      simp [hind, hrub, hcode, dictGetD, h a.char_code hcode]

theorem revenueStep_fst (ind : RateTable) (p : ℕ) (cur : RateTable)
    (st : RateTable × ℚ) (a : Asset)
    (h : ∀ k : String, k ≠ "RUB" → dictFind? st.1 k = dictFind? cur k) :
    ∀ k : String, k ≠ "RUB" →
      dictFind? (revenueStep ind p st a).1 k = dictFind? cur k := by
  intro k hk
  simp only [revenueStep]
  cases hrub : (a.char_code == "RUB") with
  | true =>
    simp only [hrub, if_true]
    rw [dictFind?_dictSet_ne st.1 "RUB" k 1 hk]
    exact h k hk
  | false =>
    simp only [hrub, Bool.false_eq_true, if_false]
    exact h k hk

theorem foldl_revenueStep (ind : RateTable) (p : ℕ) (assets : List Asset) :
    ∀ (cur : RateTable) (st : RateTable × ℚ),
      (∀ k : String, k ≠ "RUB" → dictFind? st.1 k = dictFind? cur k) →
      (assets.foldl (revenueStep ind p) st).2
        = st.2 + (assets.map (fun a =>
            a.calculate_revenue p (applicableRate ind cur a.char_code))).sum
      ∧ (∀ k : String, k ≠ "RUB" →
          dictFind? (assets.foldl (revenueStep ind p) st).1 k
            = dictFind? cur k) := by
  induction assets with
  | nil => intro cur st h; exact ⟨by simp, h⟩
  | cons a rest ih =>
    intro cur st h
    rw [List.foldl_cons]
    obtain ⟨h1, h2⟩ := ih cur (revenueStep ind p st a)
      (revenueStep_fst ind p cur st a h)
    refine ⟨?_, h2⟩
    rw [h1, revenueStep_snd ind p cur st a h, List.map_cons, List.sum_cons]
    ring

theorem calc_all_revenue_closed_form (periods : List ℕ) (assets : List Asset)
    (ind cur : RateTable) :
    calc_all_revenue periods assets ind cur
      = periods.foldl (fun d p => dictSet d p (round8 ((assets.map (fun a =>
          applicableRate ind cur a.char_code * a.capital
            * ((1 + a.interest) ^ p - 1))).sum))) [] := by
  rw [calc_all_revenue]
  suffices hgen : ∀ (ps : List ℕ) (d : List (ℕ × ℚ)) (c : RateTable),
      (∀ k : String, k ≠ "RUB" → dictFind? c k = dictFind? cur k) →
      (ps.foldl (fun (st : List (ℕ × ℚ) × RateTable) period =>
          let inner := assets.foldl (revenueStep ind period) (st.2, 0)
          (dictSet st.1 period (round8 inner.2), inner.1)) (d, c)).1
        = ps.foldl (fun d p => dictSet d p (round8 ((assets.map (fun a =>
            applicableRate ind cur a.char_code * a.capital
              * ((1 + a.interest) ^ p - 1))).sum))) d by
    exact hgen periods [] cur (fun k _ => rfl)
  intro ps
  induction ps with
  | nil =>
    intro d c h
    rfl
  | cons p rest ih =>
    intro d c h
    rw [List.foldl_cons, List.foldl_cons]
    obtain ⟨h1, h2⟩ := foldl_revenueStep ind p assets cur (c, 0) h
    have hval : (assets.foldl (revenueStep ind p) (c, 0)).2
        = (assets.map (fun a => applicableRate ind cur a.char_code * a.capital
            * ((1 + a.interest) ^ p - 1))).sum := by
      rw [h1]
      simp only [Asset.calculate_revenue, zero_add]
    have ihx := ih (dictSet d p (round8 (assets.foldl (revenueStep ind p) (c, 0)).2))
      ((assets.foldl (revenueStep ind p) (c, 0)).1) h2
    nth_rewrite 2 [hval] at ihx
    exact ihx

/-- C4: for every list of periods, every asset list and both rate tables,
the value `calc_all_revenue` records for each period is the sum over the
assets of `rate × capital × ((1 + interestRate) ^ period − 1)` — `rate`
being the asset's applicable rate — rounded to 8 decimal places. -/
theorem calc_revenue_is_rounded_sum (periods : List ℕ) (assets : List Asset)
    (ind cur : RateTable) :
    calc_all_revenue periods assets ind cur
      = periods.foldl (fun d p => dictSet d p (round8 ((assets.map (fun a =>
          applicableRate ind cur a.char_code * a.capital
            * ((1 + a.interest) ^ p - 1))).sum))) [] :=
  calc_all_revenue_closed_form periods assets ind cur

/-- C1 counterexample: with an `"RUB"` entry in the key-indicators table,
`calc_all_revenue` applies that entry (here 2) instead of the forced 1, so
the claimed `{1: 10.0}` fails: the result is `{1: 20.0}`. -/
theorem rub_indicators_win_counterexample :
    calc_all_revenue [1] [⟨"rub asset", "RUB", 100, 1/10⟩] [("RUB", 2)] []
      = [(1, 20)]
    ∧ calc_all_revenue [1] [⟨"rub asset", "RUB", 100, 1/10⟩] [("RUB", 2)] []
      ≠ [(1, 10)] := by
  constructor
  · decide
  · decide

/-- C1 (amended): the forced RUB rate of 1 overrides only the daily-rates
table; a `"RUB"` entry in the key-indicators table takes precedence over it.
Whenever the key-indicators table has no `"RUB"` entry, the rate applied to
an RUB asset is exactly 1 regardless of the daily table, and
`computeRevenue([1], [Asset(charCode="RUB", capital=100, interestRate=0.1)])`
yields `{1: 10.0}`. -/
theorem rub_rate_amended (ind cur : RateTable) (nm : String)
    (h : dictMem ind "RUB" = false) :
    applicableRate ind cur "RUB" = 1
    ∧ calc_all_revenue [1] [⟨nm, "RUB", 100, 1/10⟩] ind cur = [(1, 10)] := by
  have h1 : applicableRate ind cur "RUB" = 1 := by
    rw [applicableRate, h]
    simp
  refine ⟨h1, ?_⟩
  rw [calc_all_revenue_closed_form]
  simp only [List.foldl_cons, List.foldl_nil, List.map_cons, List.map_nil,
    List.sum_cons, List.sum_nil]
  rw [h1]
  decide

/-- Witness for the amended C1 at concrete rate tables. -/
theorem rub_rate_amended_witness :
    applicableRate [("USD", 70)] [("RUB", 50)] "RUB" = 1
    ∧ calc_all_revenue [1] [⟨"rub asset", "RUB", 100, 1/10⟩]
        [("USD", 70)] [("RUB", 50)] = [(1, 10)] :=
  rub_rate_amended [("USD", 70)] [("RUB", 50)] "rub asset" (by decide)

/-- C8: an asset whose charCode differs from "RUB" and appears in neither
rate table gets applicable rate 0 and contributes exactly 0: removing it
from the asset list leaves every period's recorded total unchanged, and the
computation is total (no error). -/
theorem unknown_code_contributes_zero (periods : List ℕ)
    (pre post : List Asset) (ind cur : RateTable) (a : Asset)
    (h1 : a.char_code ≠ "RUB") (h2 : dictMem ind a.char_code = false)
    (h3 : dictMem cur a.char_code = false) :
    applicableRate ind cur a.char_code = 0
    ∧ calc_all_revenue periods (pre ++ a :: post) ind cur
      = calc_all_revenue periods (pre ++ post) ind cur := by
  have h0 : applicableRate ind cur a.char_code = 0 := by
    rw [applicableRate, h2]
    simp only [Bool.false_eq_true, if_false]
    rw [if_neg h1, dictGetD, dictFind?_eq_none cur a.char_code h3]
    rfl
  refine ⟨h0, ?_⟩
  rw [calc_all_revenue_closed_form, calc_all_revenue_closed_form]
  congr 1
  funext d p
  simp only [List.map_append, List.sum_append, List.map_cons, List.sum_cons]
  rw [h0]
  simp

/-- Witness for C8 at concrete tables and assets. -/
theorem unknown_code_contributes_zero_witness :
    applicableRate [("USD", 70)] [("EUR", 90)] "XYZ" = 0
    ∧ calc_all_revenue [1, 2] ([⟨"d", "USD", 10, 0⟩] ++ ⟨"x", "XYZ", 5, 1/2⟩ :: [])
        [("USD", 70)] [("EUR", 90)]
      = calc_all_revenue [1, 2] ([⟨"d", "USD", 10, 0⟩] ++ [])
        [("USD", 70)] [("EUR", 90)] :=
  unknown_code_contributes_zero [1, 2] [⟨"d", "USD", 10, 0⟩] []
    [("USD", 70)] [("EUR", 90)] ⟨"x", "XYZ", 5, 1/2⟩
    (by decide) (by decide) (by decide)

/-! ## Daily-rates parser claims -/

/-- C2 counterexample: a document with no table of class `"data"` — none at
all, or one of a different class — makes `parse_cbr_currency_base_daily`
return the empty RateTable successfully instead of failing with a
ParseError. -/
theorem parse_daily_absent_table_counterexample :
    parse_cbr_currency_base_daily [] = Except.ok []
    ∧ parse_cbr_currency_base_daily [⟨"some-other-class", ["row1", "row2"]⟩]
      = Except.ok [] :=
  ⟨by decide, by decide⟩

/-- C2 (amended): when the expected table is absent — the XPath matches no
rows, or only a header row — the parser returns the empty RateTable without
error; a ParseError arises only from a present malformed data row (too few
newline segments, or non-numeric unit/rate fields). -/
theorem parse_daily_error_amended (doc : List TableElem)
    (h : (xpathDailyRows doc).drop 1 = []) :
    parse_cbr_currency_base_daily doc = Except.ok []
    ∧ parse_cbr_currency_base_daily [⟨"data", ["header", "too-short"]⟩]
      = Except.error ParseErr.indexErr
    ∧ parse_cbr_currency_base_daily
        [⟨"data", ["header", "\nnum\nUSD\nnot-a-number\nname\n62.3450"]⟩]
      = Except.error ParseErr.valueErr := by
  refine ⟨?_, by decide, by decide⟩
  rw [parse_cbr_currency_base_daily, h]
  rfl

/-- Witness for the amended C2 at a concrete document. -/
theorem parse_daily_error_amended_witness :
    parse_cbr_currency_base_daily [⟨"not-data", ["r1", "r2"]⟩] = Except.ok []
    ∧ parse_cbr_currency_base_daily [⟨"data", ["header", "too-short"]⟩]
      = Except.error ParseErr.indexErr
    ∧ parse_cbr_currency_base_daily
        [⟨"data", ["header", "\nnum\nUSD\nnot-a-number\nname\n62.3450"]⟩]
      = Except.error ParseErr.valueErr :=
  parse_daily_error_amended [⟨"not-data", ["r1", "r2"]⟩] (by decide)

/-- C3 counterexample: a data row whose newline segments are
`["USD", "", "978", "", "", "62.3450"]` — "USD" in the 1st segment, as the
claim's example shapes it — does not yield `{"USD": round(62.3450/978, 8)}`:
the parser reads the 4th segment `""` as the unit, and `int("")` fails, so
the parse is a ParseError. -/
theorem parse_daily_example_counterexample :
    parse_cbr_currency_base_daily [⟨"data", ["hdr", "USD\n\n978\n\n\n62.3450"]⟩]
      = Except.error ParseErr.valueErr
    ∧ parse_cbr_currency_base_daily [⟨"data", ["hdr", "USD\n\n978\n\n\n62.3450"]⟩]
      ≠ Except.ok [("USD", round8 (62345/978000))] :=
  ⟨by decide, by decide⟩

theorem except_ok_bind {ε α β : Type} (a : α) (f : α → Except ε β) :
    (Except.ok a : Except ε α) >>= f = f a :=
  rfl

/-- C3 (amended): the parser skips the header row and reads, from each data
row's newline-split text, the currency code from the 3rd segment (stripped),
the unit from the 4th and the rate from the 6th, recording
`round(rate/unit, 8)` under the code; a data row whose segments are
`["", "36", "USD", "978", "US Dollar", "62.3450"]` yields
`{"USD": round(62.3450/978, 8)} = {"USD": 0.06374744}`. -/
theorem parse_daily_row_offsets_amended (hdr row : String)
    (s2 s3 s5 : String) (u : ℤ) (r : ℚ)
    (h2 : ((splitCharsOn '\n' row.data).map String.mk)[2]? = some s2)
    (h3 : ((splitCharsOn '\n' row.data).map String.mk)[3]? = some s3)
    (h5 : ((splitCharsOn '\n' row.data).map String.mk)[5]? = some s5)
    (hu : pyInt s3 = some u) (hu0 : u ≠ 0) (hr : pyFloat s5 = some r) :
    parse_cbr_currency_base_daily [⟨"data", [hdr, row]⟩]
      = Except.ok [(pyStrip s2, round8 (r / (u : ℚ)))]
    ∧ parse_cbr_currency_base_daily
        [⟨"data", ["hdr", "\n36\nUSD\n978\nUS Dollar\n62.3450"]⟩]
      = Except.ok [("USD", 6374744/100000000)] := by
  refine ⟨?_, by decide⟩
  have hrows : xpathDailyRows [⟨"data", [hdr, row]⟩] = [hdr, row] := by
    simp [xpathDailyRows]
  rw [parse_cbr_currency_base_daily, hrows]
  simp only [List.drop_succ_cons, List.drop_zero]
  simp only [List.getElem?_map] at h2 h3 h5
  simp [parseDailyRow, h2, h3, h5, hu, hr, hu0, dictSet, except_ok_bind]

/-- Witness for the amended C3 at a concrete well-formed row. -/
theorem parse_daily_row_offsets_amended_witness :
    parse_cbr_currency_base_daily
        [⟨"data", ["any header", "\n36\nUSD\n978\nUS Dollar\n62.3450"]⟩]
      = Except.ok [(pyStrip "USD", round8 ((12469/200 : ℚ) / ((978 : ℤ) : ℚ)))]
    ∧ parse_cbr_currency_base_daily
        [⟨"data", ["hdr", "\n36\nUSD\n978\nUS Dollar\n62.3450"]⟩]
      = Except.ok [("USD", 6374744/100000000)] :=
  parse_daily_row_offsets_amended "any header" "\n36\nUSD\n978\nUS Dollar\n62.3450"
    "USD" "978" "62.3450" 978 (12469/200)
    (by decide) (by decide) (by decide) (by decide) (by decide) (by decide)

end AssetWS
